import Mathlib

/-!
Verification of the market-data analysis engine of `is_market_bluffing`.

Shallow embedding of:
* `src/backend/app/services/analysis.py`
  (`_find_qualifying_events`, `_safe_ratio`, `_distribution`, `BluffAnalysisService.run`)
* `src/backend/app/services/yfinance_provider.py`
  (`_compute_beta`, `get_default_universe` and its loaders, `get_price_history`,
   `_cache_covers`, `_slice_prices`, `_resize_default_universe`,
   `_dedupe_keep_order`, `_normalize_ticker`)

Modelling conventions:
* calendar dates are day numbers in `ℤ`; `(d2 - d1).days` becomes `d2 - d1`;
* float prices/returns/rates are exact rationals `ℚ` (pandas/numpy float
  arithmetic is modelled exactly; rounding of binary floats is abstracted away);
* filesystem / network effects appear as explicit inputs: a value of
  `Fetch α` is the outcome of one I/O action (`ok` with the parsed payload,
  or `raises` when the underlying Python call threw an exception).
-/

namespace MarketBluff

/-- Outcome of one fallible I/O action (file read, HTTP fetch, csv parse):
either a parsed payload or a raised exception. -/
inductive Fetch (α : Type) where
  | ok (val : α)
  | raises
deriving DecidableEq

/-! ### Event detector (`analysis.py`, `_find_qualifying_events`) -/

/-- One daily OHLC bar as consumed by `_find_qualifying_events`
(only the `High` and `Low` columns are read there; rows with NaN were
dropped by `dropna`, so both fields are total). -/
structure Bar where
  date : ℤ
  high : ℚ
  low  : ℚ
deriving DecidableEq

/-- `EventData` dataclass from `analysis.py`. -/
structure EventData where
  peak_date : ℤ
  trough_date : ℤ
  decline_pct : ℚ
  peak_price : ℚ
  trough_price : ℚ
  recovered : Bool
  recovery_date : Option ℤ
  recovery_price : Option ℚ
  recovery_days : Option ℤ
deriving DecidableEq

/-- The in-flight loop variables of `_find_qualifying_events`:
`state` (`"tracking_peak"` / `"in_drawdown"` becomes `inDrawdown : Bool`),
the running peak, the open-event fields and the accumulated event list. -/
structure DetectorState where
  inDrawdown : Bool
  peak_price : ℚ
  peak_date : ℤ
  event_peak_price : ℚ
  event_peak_date : ℤ
  trigger_price : ℚ
  trigger_date : ℤ
  events : List EventData
deriving DecidableEq

/-- Loop state seeded from the first bar (`rows[0]`) in `_find_qualifying_events`. -/
def initState (b : Bar) : DetectorState :=
  { inDrawdown := false
    peak_price := b.high
    peak_date := b.date
    event_peak_price := b.high
    event_peak_date := b.date
    trigger_price := b.high
    trigger_date := b.date
    events := [] }

/-- One iteration of the `for idx in range(1, len(rows))` loop of
`_find_qualifying_events`, processing bar `b`. -/
def stepBar (threshold_pct : ℚ) (s : DetectorState) (b : Bar) : DetectorState :=
  if s.inDrawdown then
    if b.high ≥ s.event_peak_price ∧ b.date > s.trigger_date then
      let decline := (s.event_peak_price - s.trigger_price) / s.event_peak_price * 100
      let e : EventData :=
        { peak_date := s.event_peak_date
          trough_date := s.trigger_date
          decline_pct := decline
          peak_price := s.event_peak_price
          trough_price := s.trigger_price
          recovered := true
          recovery_date := some b.date
          recovery_price := some b.high
          recovery_days := some (b.date - s.trigger_date) }
      { s with inDrawdown := false
               events := s.events ++ [e]
               peak_price := b.high
               peak_date := b.date }
    else s
  else
    let pp := if b.high > s.peak_price then b.high else s.peak_price
    let pd := if b.high > s.peak_price then b.date else s.peak_date
    if b.date > pd then
      if (pp - b.low) / pp * 100 ≥ threshold_pct then
        { s with inDrawdown := true
                 peak_price := pp
                 peak_date := pd
                 event_peak_price := pp
                 event_peak_date := pd
                 trigger_price := b.low
                 trigger_date := b.date }
      else { s with peak_price := pp, peak_date := pd }
    else { s with peak_price := pp, peak_date := pd }

/-- The trailing `if state == "in_drawdown"` block of `_find_qualifying_events`:
append one final unrecovered event if the series ended inside a drawdown. -/
def finalEvents (s : DetectorState) : List EventData :=
  if s.inDrawdown then
    s.events ++
      [{ peak_date := s.event_peak_date
         trough_date := s.trigger_date
         decline_pct := (s.event_peak_price - s.trigger_price) / s.event_peak_price * 100
         peak_price := s.event_peak_price
         trough_price := s.trigger_price
         recovered := false
         recovery_date := none
         recovery_price := none
         recovery_days := none }]
  else s.events

/-- `_find_qualifying_events(prices, threshold_pct)` on the bar rows obtained
after `sort_index()[["High", "Low"]].dropna()`; fewer than two rows yield `[]`. -/
def findQualifyingEvents (bars : List Bar) (threshold_pct : ℚ) : List EventData :=
  match bars with
  | [] => []
  | [_] => []
  | b0 :: rest => finalEvents (rest.foldl (stepBar threshold_pct) (initState b0))

/-- The per-event well-formedness facts of the data model: trough below peak,
the documented `decline_pct` formula (exact in rational arithmetic, hence
within any floating tolerance), and, for recovered events, the recovery
fields present with `recovery_price ≥ peak_price` and
`recovery_days = recovery_date - trough_date ≥ 0`. -/
def eventOk (e : EventData) : Prop :=
  e.trough_price ≤ e.peak_price ∧
  e.decline_pct = (e.peak_price - e.trough_price) / e.peak_price * 100 ∧
  (e.recovered = true →
    ∃ rd rp days, e.recovery_date = some rd ∧ e.recovery_price = some rp ∧
      e.recovery_days = some days ∧ e.peak_price ≤ rp ∧
      days = rd - e.trough_date ∧ 0 ≤ days)

/-- Date-ordering invariant of the detector loop, relative to the date
`lastD` of the most recently consumed bar. -/
structure DatesInv (lastD : ℤ) (s : DetectorState) : Prop where
  peak_le : s.peak_date ≤ lastD
  draw_dates : s.inDrawdown = true → s.event_peak_date < s.trigger_date
  draw_before : s.inDrawdown = true → ∀ e ∈ s.events, e.trough_date < s.event_peak_date
  track_before : s.inDrawdown = false → ∀ e ∈ s.events, e.trough_date < s.peak_date
  chain : List.Chain' (fun a b => a.trough_date < b.peak_date) s.events

/-- Price well-formedness invariant of the detector loop. -/
structure OkInv (s : DetectorState) : Prop where
  draw_trough : s.inDrawdown = true → s.trigger_price ≤ s.event_peak_price
  ok : ∀ e ∈ s.events, eventOk e

/-- The dates of the bars in `l` strictly ascend, starting strictly after `d`. -/
def datesAfter (d : ℤ) : List Bar → Prop
  | [] => True
  | b :: rest => d < b.date ∧ datesAfter b.date rest

/-! ### Beta calculator (`yfinance_provider.py`, `_compute_beta`) -/

/-- The inner join by date performed by
`pd.DataFrame({"stock": ..., "market": ...}).dropna()`:
rows of the stock close series whose date also occurs in the market series. -/
def innerJoinByDate (stock market : List (ℤ × ℚ)) : List (ℤ × ℚ × ℚ) :=
  stock.filterMap fun p => (market.find? fun q => q.1 == p.1).map fun q => (p.1, p.2, q.2)

/-- `joined.pct_change().dropna()`: day-over-day percentage returns of both
columns, the first row dropped because it has no prior day. -/
def pctChanges (joined : List (ℤ × ℚ × ℚ)) : List (ℚ × ℚ) :=
  (joined.zip joined.tail).map fun pq =>
    ((pq.2.2.1 - pq.1.2.1) / pq.1.2.1, (pq.2.2.2 - pq.1.2.2) / pq.1.2.2)

def listSum (l : List ℚ) : ℚ := l.foldl (· + ·) 0

def listMean (l : List ℚ) : ℚ := listSum l / l.length

/-- `np.var(xs, ddof=1)`: unbiased sample variance. -/
def sampleVar (l : List ℚ) : ℚ :=
  listSum (l.map fun x => (x - listMean l) ^ 2) / ((l.length : ℚ) - 1)

/-- `np.cov(xs, ys, ddof=1)[0, 1]`: unbiased sample covariance. -/
def sampleCov (pairs : List (ℚ × ℚ)) : ℚ :=
  listSum (pairs.map fun p =>
    (p.1 - listMean (pairs.map Prod.fst)) * (p.2 - listMean (pairs.map Prod.snd))) /
    ((pairs.length : ℚ) - 1)

/-- `_compute_beta` after the two `get_price_history` calls: the inputs are the
close series of the ticker and of the benchmark over the lookback window.
The final `np.isfinite(beta)` guard of the source is unreachable in exact
rational arithmetic (the divisor is strictly positive there), so it is not
modelled. -/
def computeBeta (stock market : List (ℤ × ℚ)) : ℚ :=
  if stock.isEmpty || market.isEmpty then 1
  else
    let joined := innerJoinByDate stock market
    if joined.length < 60 then 1
    else
      let returns := pctChanges joined
      if returns.isEmpty then 1
      else
        let marketVar := sampleVar (returns.map Prod.snd)
        if marketVar ≤ 1 / 1000000000000 then 1
        else sampleCov returns / marketVar

/-! ### Universe resolver (`yfinance_provider.py`) -/

/-- A parsed csv/html table as the universe loaders see it: presence of the
ticker (resp. `Symbol`) column, the ticker column values, presence of the
`as_of` column, Python truthiness of its first cell, and the result of
`datetime.strptime` on that cell (`none` when it would raise). -/
structure UFrame where
  hasTicker : Bool
  rows : List String
  hasAsOf : Bool
  asOfTruthy : Bool
  asOfParse : Option ℤ
deriving DecidableEq

/-- `UniverseData` dataclass from `data_provider.py`. -/
structure UniverseData where
  source : String
  as_of : Option ℤ
  tickers : List String
deriving DecidableEq

/-- `LEGACY_TICKER_MAP` (AmerisourceBergen renamed to Cencora). -/
def legacyTickerMap (t : String) : String := if t = "ABC" then "COR" else t

/-- `_normalize_ticker`: strip, uppercase, `.` to `-`, legacy remap. -/
def normalizeTicker (t : String) : String :=
  legacyTickerMap ((t.trim.toUpper).replace "." "-")

/-- One iteration of the `_dedupe_keep_order` loop. -/
def dedupeStep (acc : List String) (raw : String) : List String :=
  let t := normalizeTicker raw
  if t = "" ∨ t ∈ acc then acc else acc ++ [t]

/-- `_dedupe_keep_order`: normalize each ticker, drop empty strings and
duplicates, preserve first-seen order. -/
def dedupeKeepOrder (tickers : List String) : List String :=
  tickers.foldl dedupeStep []

/-- Python `sorted(set(l))` for strings. -/
def pySortedSet (l : List String) : List String :=
  List.insertionSort (fun a b => a ≤ b) l.dedup

/-- `sorted(set(col.astype(str).str.upper().str.replace(".", "-")))` as used by
the live and snapshot universe loaders. -/
def upperDashSortedSet (l : List String) : List String :=
  pySortedSet (l.map fun t => t.toUpper.replace "." "-")

/-- `FALLBACK_SP500_TICKERS` static seed list. -/
def FALLBACK_SP500_TICKERS : List String :=
  ["AAPL", "MSFT", "AMZN", "NVDA", "GOOGL", "GOOG", "META", "BRK-B", "JPM", "V",
   "UNH", "XOM", "LLY", "MA", "AVGO", "PG", "HD", "MRK", "COST", "KO",
   "PEP", "ABBV", "ADBE", "BAC", "CRM", "WMT", "NFLX", "MCD", "CSCO", "TMO",
   "PFE", "ABT", "AMD", "ACN", "CMCSA", "DHR", "LIN", "TXN", "WFC", "DIS",
   "AMGN", "VZ", "INTU", "QCOM", "INTC", "UPS", "PM", "RTX", "LOW", "HON",
   "NEE", "UNP", "SBUX", "ORCL", "CAT", "IBM", "GS", "SPGI", "MS", "CVX",
   "AMAT", "BLK", "DE", "GILD", "MDT", "LMT", "C", "T", "BA", "AXP",
   "BKNG", "TJX", "CI", "SYK", "ADP", "ZTS", "PLD", "ISRG", "MMC", "MO",
   "SCHW", "GE", "CB", "SO", "ADI", "PNC", "ELV", "DUK", "TMUS", "MU",
   "AON", "VRTX", "REGN", "BSX", "CL", "APD", "ITW", "SHW", "SNPS", "EOG"]

/-- `_load_default_seed_tickers`: read the bundled seed csv if present and
usable (all failures caught), else dedupe the static fallback list.
`seedFile = none` models a missing file. -/
def loadDefaultSeedTickers (seedFile : Option (Fetch UFrame)) : List String :=
  match seedFile with
  | some (Fetch.ok f) =>
      if f.hasTicker ∧ f.rows ≠ [] then
        let d := dedupeKeepOrder f.rows
        if d ≠ [] then d else dedupeKeepOrder FALLBACK_SP500_TICKERS
      else dedupeKeepOrder FALLBACK_SP500_TICKERS
  | _ => dedupeKeepOrder FALLBACK_SP500_TICKERS

/-- The `for ticker in seed` padding loop of `_resize_default_universe`:
append seed tickers not yet present, stopping as soon as the target size is
reached or the seed is exhausted. -/
def padFromSeed (tickers seed : List String) (target : ℤ) : List String :=
  match seed with
  | [] => tickers
  | s :: rest =>
      let t := if s ∈ tickers then tickers else tickers ++ [s]
      if (t.length : ℤ) ≥ target then t else padFromSeed t rest target

/-- `_resize_default_universe`. -/
def resizeDefaultUniverse (seedFile : Option (Fetch UFrame))
    (defaultUniverseSize : ℤ) (u : UniverseData) : UniverseData :=
  let tickers0 := dedupeKeepOrder u.tickers
  let target := max 1 defaultUniverseSize
  let tickers1 :=
    if (tickers0.length : ℤ) < target then
      padFromSeed tickers0 (loadDefaultSeedTickers seedFile) target
    else tickers0
  let tickers2 :=
    if (tickers1.length : ℤ) > target then tickers1.take target.toNat else tickers1
  let src :=
    if u.source ≠ "" ∧ ¬ u.source.endsWith ("-top" ++ toString target) then
      u.source ++ "-top" ++ toString target
    else u.source
  { source := src, as_of := u.as_of, tickers := tickers2 }

/-- `_load_live_sp500_if_available`: same-day live cache, else live fetch.
Every I/O failure inside this function is caught by its own try/except
blocks, so the result is a plain `Option`.  `cacheFile = none` models a
missing cache file; `Fetch.raises` models the corresponding Python call
raising (`hasTicker` stands for the `Symbol` column on the fetched table). -/
def loadLiveSp500 (cacheFile : Option (Fetch UFrame)) (today : ℤ)
    (webFetch : Fetch UFrame) (webWrite : Fetch Unit) : Option UniverseData :=
  let fromCache : Option UniverseData :=
    match cacheFile with
    | some (Fetch.ok f) =>
        if f.hasTicker ∧ f.rows ≠ [] then
          if f.hasAsOf ∧ f.asOfTruthy then
            match f.asOfParse with
            | none => none
            | some d =>
                if d = today then
                  some ⟨"wikipedia-live-cache", some d, upperDashSortedSet f.rows⟩
                else none
          else none
        else none
    | _ => none
  match fromCache with
  | some u => some u
  | none =>
      match webFetch with
      | Fetch.raises => none
      | Fetch.ok f =>
          if ¬ f.hasTicker then none
          else
            match webWrite with
            | Fetch.raises => none
            | Fetch.ok _ => some ⟨"wikipedia-live", some today, upperDashSortedSet f.rows⟩

/-- `_load_snapshot_sp500`: in the source, `pd.read_csv` is NOT wrapped in a
try/except, so a parse failure propagates (`Fetch.raises`); only the
`strptime` of `as_of` is guarded. -/
def loadSnapshotSp500 (snapExists : Bool) (snapRead : Fetch UFrame) :
    Fetch (Option UniverseData) :=
  if ¬ snapExists then Fetch.ok none
  else
    match snapRead with
    | Fetch.raises => Fetch.raises
    | Fetch.ok f =>
        if ¬ f.hasTicker ∨ f.rows = [] then Fetch.ok none
        else
          let asOf := if f.hasAsOf then f.asOfParse else none
          Fetch.ok (some ⟨"snapshot-feb2026", asOf, upperDashSortedSet f.rows⟩)

/-- `get_default_universe`: the live / snapshot / static-seed fallback chain.
An exception escaping one of the steps propagates as `Fetch.raises`. -/
def getDefaultUniverse (cacheFile : Option (Fetch UFrame)) (today : ℤ)
    (webFetch : Fetch UFrame) (webWrite : Fetch Unit)
    (snapExists : Bool) (snapRead : Fetch UFrame)
    (seedFile : Option (Fetch UFrame)) (defaultUniverseSize : ℤ) :
    Fetch UniverseData :=
  match loadLiveSp500 cacheFile today webFetch webWrite with
  | some live => Fetch.ok (resizeDefaultUniverse seedFile defaultUniverseSize live)
  | none =>
      match loadSnapshotSp500 snapExists snapRead with
      | Fetch.raises => Fetch.raises
      | Fetch.ok (some snap) =>
          Fetch.ok (resizeDefaultUniverse seedFile defaultUniverseSize snap)
      | Fetch.ok none =>
          Fetch.ok (resizeDefaultUniverse seedFile defaultUniverseSize
            ⟨"fallback-static", none, loadDefaultSeedTickers seedFile⟩)

/-! ### Price history cache (`yfinance_provider.py`, `get_price_history`) -/

/-- One row of the per-ticker price cache / fetched price frame. -/
structure PBar where
  date : ℤ
  high : ℚ
  low : ℚ
  close : ℚ
deriving DecidableEq

/-- `frame.index.min().date()` (the frame is nonempty when used). -/
def minDate : List PBar → ℤ
  | [] => 0
  | b :: rest => rest.foldl (fun m x => min m x.date) b.date

/-- `frame.index.max().date()` (the frame is nonempty when used). -/
def maxDate : List PBar → ℤ
  | [] => 0
  | b :: rest => rest.foldl (fun m x => max m x.date) b.date

/-- `_cache_covers`: nonempty and `first ≤ start` and `last ≥ end − 2 days`. -/
def cacheCovers (frame : List PBar) (startD endD : ℤ) : Bool :=
  match frame with
  | [] => false
  | _ => decide (minDate frame ≤ startD ∧ endD - 2 ≤ maxDate frame)

/-- `_slice_prices`: keep the rows dated within `[start, end]`. -/
def slicePrices (frame : List PBar) (startD endD : ℤ) : List PBar :=
  frame.filter fun b => decide (startD ≤ b.date ∧ b.date ≤ endD)

/-- The raw result of `yf.download` as `_fetch_price_history` inspects it:
column presence flags and rows whose cells may be NaN (`none`). -/
structure RawPriceFrame where
  hasHigh : Bool
  hasLow : Bool
  hasClose : Bool
  rows : List (ℤ × Option ℚ × Option ℚ × Option ℚ)
deriving DecidableEq

/-- `_fetch_price_history`: transport failure, empty frame or missing columns
all yield an empty series; otherwise `dropna().sort_index()`. -/
def fetchPriceHistory (download : Fetch RawPriceFrame) : List PBar :=
  match download with
  | Fetch.raises => []
  | Fetch.ok f =>
      if f.rows = [] then []
      else if ¬ (f.hasHigh ∧ f.hasLow ∧ f.hasClose) then []
      else
        List.insertionSort (fun a b => a.date ≤ b.date)
          (f.rows.filterMap fun r =>
            match r.2.1, r.2.2.1, r.2.2.2 with
            | some h, some l, some c => some ⟨r.1, h, l, c⟩
            | _, _, _ => none)

/-- `get_price_history` for one (already normalized) ticker: `cached` is the
parsed cache file content (`_read_price_cache` absorbs its own errors and
yields `[]` on any failure), `download` the upstream fetch outcome.  The
returned flag records whether an upstream fetch was attempted; the cache
rewrite is a pure side effect and does not change the returned series. -/
def getPriceHistory (cached : List PBar) (download : Fetch RawPriceFrame)
    (startD endD : ℤ) : List PBar × Bool :=
  if cached ≠ [] ∧ cacheCovers cached startD endD = true then
    (slicePrices cached startD endD, false)
  else
    let fetched := fetchPriceHistory download
    if fetched = [] then ([], true)
    else (slicePrices fetched startD endD, true)

/-! ### Concurrency orchestrator (`analysis.py`, `BluffAnalysisService.run`) -/

/-- Per-ticker result row, trimmed to the fields `run` aggregates on
(`decline_pct` for the sort, `recovered` for the recovered subset,
`recovery_days` for the distribution). -/
structure StockAnalysis where
  ticker : String
  decline_pct : ℚ
  recovered : Bool
  recovery_days : Option ℤ
deriving DecidableEq

/-- What `future.result()` delivers for one ticker inside `run`:
an exception (`raises`), `None` (filtered out, no qualifying events),
the ticker string (`noData`, the under-2-bars path of `_analyze_ticker`),
or the `(stock, declined_event_count, recovered_event_count)` tuple. -/
inductive TickerOutcome where
  | raises
  | skipped
  | noData
  | success (stock : Option StockAnalysis) (declinedEvents recoveredEvents : ℕ)
deriving DecidableEq

/-- The mutable collection state of `run`'s result loop. -/
structure RunAcc where
  stocks : List StockAnalysis
  declinedEvents : ℕ
  recoveredEvents : ℕ
  failed : List String
deriving DecidableEq

/-- One iteration of the `for future in as_completed(...)` loop of `run`. -/
def runStep (acc : RunAcc) (item : String × TickerOutcome) : RunAcc :=
  match item.2 with
  | TickerOutcome.raises => { acc with failed := acc.failed ++ [item.1] }
  | TickerOutcome.skipped => acc
  | TickerOutcome.noData => { acc with failed := acc.failed ++ [item.1] }
  | TickerOutcome.success stock d r =>
      { acc with
        stocks := acc.stocks ++ stock.toList
        declinedEvents := acc.declinedEvents + d
        recoveredEvents := acc.recoveredEvents + r }

/-- The tickers of the failing outcomes (exception or no-data), one entry
per failure occurrence, in processing order. -/
def failedRaw (outcomes : List (String × TickerOutcome)) : List String :=
  outcomes.filterMap fun item =>
    match item.2 with
    | TickerOutcome.raises => some item.1
    | TickerOutcome.noData => some item.1
    | _ => none

/-- `_safe_ratio`. -/
def safeRatio (numerator denominator : ℚ) : ℚ :=
  if denominator ≤ 0 then 0 else numerator / denominator

/-- Python 3 `round` to an integer: round-half-to-even. -/
def pyRoundInt (q : ℚ) : ℤ :=
  if q - ⌊q⌋ < 1 / 2 then ⌊q⌋
  else if 1 / 2 < q - ⌊q⌋ then ⌊q⌋ + 1
  else if ⌊q⌋ % 2 = 0 then ⌊q⌋ else ⌊q⌋ + 1

/-- Python `round(q, 4)`. -/
def round4 (q : ℚ) : ℚ := (pyRoundInt (q * 10000) : ℚ) / 10000

/-- `np.percentile(arr, q)` with the default linear interpolation. -/
def percentileLinear (values : List ℚ) (q : ℚ) : ℚ :=
  let sorted := List.insertionSort (fun a b => a ≤ b) values
  let pos := q / 100 * ((sorted.length : ℚ) - 1)
  let i := (⌊pos⌋).toNat
  let frac := pos - (⌊pos⌋ : ℚ)
  match sorted[i]?, sorted[i + 1]? with
  | some a, some b => a + frac * (b - a)
  | some a, none => a
  | none, _ => 0

/-- `_distribution`: 25th/50th/75th percentiles, `none`s when empty. -/
def distribution (values : List ℚ) : Option ℚ × Option ℚ × Option ℚ :=
  if values = [] then (none, none, none)
  else
    (some (round4 (percentileLinear values 25)),
     some (round4 (percentileLinear values 50)),
     some (round4 (percentileLinear values 75)))

/-- `AnalysisSummary`, restricted to the fields computed by the aggregation
(`generated_at`, `params` and `universe_size` are a clock read and caller
passthroughs). -/
structure AnalysisSummary where
  evaluated_ticker_count : ℕ
  declined_stock_count : ℕ
  recovered_stock_count : ℕ
  stock_bluff_rate_pct : ℚ
  declined_event_count : ℕ
  recovered_event_count : ℕ
  event_bluff_rate_pct : ℚ
  recovery_days_distribution : Option ℚ × Option ℚ × Option ℚ
  failed_ticker_count : ℕ
  failed_tickers : List String
  declined_stocks : List StockAnalysis
  recovered_stocks : List StockAnalysis
deriving DecidableEq

/-- The collection loop of `run` over the per-ticker outcomes. -/
def accOf (outcomes : List (String × TickerOutcome)) : RunAcc :=
  outcomes.foldl runStep ⟨[], 0, 0, []⟩

/-- The aggregation tail of `run`: stable sort by `decline_pct` descending
(Python `list.sort(reverse=True)` is stable), recovered subset, rates,
distribution, failed-ticker accounting. -/
def summaryOfAcc (tickerCount : ℕ) (acc : RunAcc) : AnalysisSummary :=
  let declined := List.insertionSort (fun a b => b.decline_pct ≤ a.decline_pct) acc.stocks
  let recovered := declined.filter fun s => s.recovered
  { evaluated_ticker_count := tickerCount
    declined_stock_count := declined.length
    recovered_stock_count := recovered.length
    stock_bluff_rate_pct := round4 (safeRatio recovered.length declined.length * 100)
    declined_event_count := acc.declinedEvents
    recovered_event_count := acc.recoveredEvents
    event_bluff_rate_pct := round4 (safeRatio acc.recoveredEvents acc.declinedEvents * 100)
    recovery_days_distribution :=
      distribution (recovered.filterMap fun s => s.recovery_days.map fun d => (d : ℚ))
    failed_ticker_count := acc.failed.length
    failed_tickers := pySortedSet acc.failed
    declined_stocks := declined
    recovered_stocks := recovered }

/-- `BluffAnalysisService.run`, given the per-ticker outcomes. -/
def runAnalysis (outcomes : List (String × TickerOutcome)) : AnalysisSummary :=
  summaryOfAcc outcomes.length (accOf outcomes)

/-! ### Concrete inputs used by witnesses and counterexamples -/

/-- The spec's recovered-drawdown scenario: high 100, low 79 (decline 21%),
then a high of 101. -/
def demoBars : List Bar := [⟨0, 100, 100⟩, ⟨1, 80, 79⟩, ⟨2, 101, 100⟩]

/-- The single event the detector emits on `demoBars` at threshold 20. -/
def demoEvent : EventData := ⟨0, 1, 21, 100, 79, true, some 2, some 101, some 1⟩

/-- A series producing one recovered event followed by one unrecovered event. -/
def demoBars2 : List Bar :=
  [⟨0, 100, 100⟩, ⟨1, 90, 85⟩, ⟨2, 101, 95⟩, ⟨3, 92, 88⟩]

/-- A constant close series: its returns are all zero. -/
def demoStockSeries : List (ℤ × ℚ) :=
  (List.range 60).map fun i => ((i : ℤ), (5 : ℚ))

/-- An oscillating benchmark close series sharing all 60 dates with
`demoStockSeries`. -/
def demoMarketSeries : List (ℤ × ℚ) :=
  (List.range 60).map fun i => ((i : ℤ), if i % 2 = 0 then (1 : ℚ) else 2)

def demoStockA : StockAnalysis := ⟨"AAA", 30, true, some 5⟩

def demoStockB : StockAnalysis := ⟨"BBB", 20, false, none⟩

def demoStockC : StockAnalysis := ⟨"CCC", 10, false, none⟩

/-- Three analyzed tickers, one of them recovered. -/
def demoOutcomes : List (String × TickerOutcome) :=
  [("AAA", TickerOutcome.success (some demoStockA) 1 1),
   ("BBB", TickerOutcome.success (some demoStockB) 1 0),
   ("CCC", TickerOutcome.success (some demoStockC) 1 0)]

/-- The same failing ticker submitted twice. -/
def demoFailedOutcomes : List (String × TickerOutcome) :=
  [("XXX", TickerOutcome.raises), ("XXX", TickerOutcome.raises)]

/-- A two-row price cache covering dates 0 to 10. -/
def demoCache : List PBar := [⟨0, 1, 1, 1⟩, ⟨10, 1, 1, 1⟩]

/-- A one-point close series (far fewer than 60 observations). -/
def demoTinySeries : List (ℤ × ℚ) := [(0, 1)]

/-! ## Lemmas about the event detector -/

theorem stepBar_close {θ : ℚ} {s : DetectorState} {b : Bar}
    (hdraw : s.inDrawdown = true)
    (hrec : b.high ≥ s.event_peak_price ∧ b.date > s.trigger_date) :
    stepBar θ s b =
      { s with inDrawdown := false
               events := s.events ++
                 [{ peak_date := s.event_peak_date
                    trough_date := s.trigger_date
                    decline_pct :=
                      (s.event_peak_price - s.trigger_price) / s.event_peak_price * 100
                    peak_price := s.event_peak_price
                    trough_price := s.trigger_price
                    recovered := true
                    recovery_date := some b.date
                    recovery_price := some b.high
                    recovery_days := some (b.date - s.trigger_date) }]
               peak_price := b.high
               peak_date := b.date } := by
  unfold stepBar
  rw [if_pos hdraw, if_pos hrec]

theorem stepBar_stay {θ : ℚ} {s : DetectorState} {b : Bar}
    (hdraw : s.inDrawdown = true)
    (hrec : ¬ (b.high ≥ s.event_peak_price ∧ b.date > s.trigger_date)) :
    stepBar θ s b = s := by
  unfold stepBar
  rw [if_pos hdraw, if_neg hrec]

theorem stepBar_newhigh {θ : ℚ} {s : DetectorState} {b : Bar}
    (hdraw : s.inDrawdown = false) (hbp : b.high > s.peak_price) :
    stepBar θ s b = { s with peak_price := b.high, peak_date := b.date } := by
  unfold stepBar
  rw [if_neg (by simp [hdraw])]
  simp only [if_pos hbp, gt_iff_lt, lt_self_iff_false, if_false]

theorem stepBar_open {θ : ℚ} {s : DetectorState} {b : Bar}
    (hdraw : s.inDrawdown = false) (hbp : ¬ b.high > s.peak_price)
    (hdt : b.date > s.peak_date)
    (hth : (s.peak_price - b.low) / s.peak_price * 100 ≥ θ) :
    stepBar θ s b =
      { s with inDrawdown := true
               event_peak_price := s.peak_price
               event_peak_date := s.peak_date
               trigger_price := b.low
               trigger_date := b.date } := by
  unfold stepBar
  rw [if_neg (by simp [hdraw])]
  simp only [if_neg hbp, if_pos hdt, if_pos hth]

theorem stepBar_flat1 {θ : ℚ} {s : DetectorState} {b : Bar}
    (hdraw : s.inDrawdown = false) (hbp : ¬ b.high > s.peak_price)
    (hdt : ¬ b.date > s.peak_date) :
    stepBar θ s b = s := by
  unfold stepBar
  rw [if_neg (by simp [hdraw])]
  simp only [if_neg hbp, if_neg hdt]

theorem stepBar_flat2 {θ : ℚ} {s : DetectorState} {b : Bar}
    (hdraw : s.inDrawdown = false) (hbp : ¬ b.high > s.peak_price)
    (hdt : b.date > s.peak_date)
    (hth : ¬ (s.peak_price - b.low) / s.peak_price * 100 ≥ θ) :
    stepBar θ s b = s := by
  unfold stepBar
  rw [if_neg (by simp [hdraw])]
  simp only [if_neg hbp, if_pos hdt, if_neg hth]

theorem events_rec_step (θ : ℚ) (s : DetectorState) (b : Bar)
    (hs : ∀ e ∈ s.events, e.recovered = true) :
    ∀ e ∈ (stepBar θ s b).events, e.recovered = true := by
  cases hdraw : s.inDrawdown with
  | true =>
      by_cases hrec : b.high ≥ s.event_peak_price ∧ b.date > s.trigger_date
      · rw [stepBar_close hdraw hrec]
        intro e he
        simp only [List.mem_append, List.mem_singleton] at he
        rcases he with he | he
        · exact hs e he
        · subst he; rfl
      · rw [stepBar_stay hdraw hrec]; exact hs
  | false =>
      by_cases hbp : b.high > s.peak_price
      · rw [stepBar_newhigh hdraw hbp]; exact hs
      · by_cases hdt : b.date > s.peak_date
        · by_cases hth : (s.peak_price - b.low) / s.peak_price * 100 ≥ θ
          · rw [stepBar_open hdraw hbp hdt hth]; exact hs
          · rw [stepBar_flat2 hdraw hbp hdt hth]; exact hs
        · rw [stepBar_flat1 hdraw hbp hdt]; exact hs

theorem events_rec_foldl (θ : ℚ) (l : List Bar) :
    ∀ s : DetectorState, (∀ e ∈ s.events, e.recovered = true) →
      ∀ e ∈ (l.foldl (stepBar θ) s).events, e.recovered = true := by
  induction l with
  | nil => intro s hs; exact hs
  | cons b rest ih => intro s hs; exact ih _ (events_rec_step θ s b hs)

theorem chain'_concat_of_forall {α : Type} {R : α → α → Prop} :
    ∀ (l : List α) (a : α), List.Chain' R l → (∀ x ∈ l, R x a) →
      List.Chain' R (l ++ [a]) := by
  intro l a
  induction l with
  | nil => intro _ _; simp
  | cons x rest ih =>
      intro hc hall
      cases rest with
      | nil =>
          simp only [List.nil_append, List.singleton_append]
          exact List.chain'_pair.mpr (hall x (by simp))
      | cons y rest2 =>
          rw [List.cons_append, List.cons_append, List.chain'_cons]
          rw [List.chain'_cons] at hc
          exact ⟨hc.1, ih hc.2 (fun z hz => hall z (List.mem_cons_of_mem x hz))⟩

/-- **C9.** (implicit) For every bar sequence and threshold, every event in the
detector's output except possibly the last one is recovered; hence the list
contains at most one unrecovered event and, if present, it is the last
element (the loop only ever appends recovered events; the single unrecovered
event can only be appended by the trailing end-of-series block). -/
theorem findQualifyingEvents_unrecovered_last (bars : List Bar) (θ : ℚ) :
    ∀ e ∈ (findQualifyingEvents bars θ).dropLast, e.recovered = true := by
  intro e he
  cases bars with
  | nil => simp [findQualifyingEvents] at he
  | cons b0 rest =>
    cases rest with
    | nil => simp [findQualifyingEvents] at he
    | cons b1 rest2 =>
      have hrec := events_rec_foldl θ (b1 :: rest2) (initState b0)
        (by intro x hx; simp [initState] at hx)
      simp only [findQualifyingEvents] at he
      unfold finalEvents at he
      by_cases hd : ((b1 :: rest2).foldl (stepBar θ) (initState b0)).inDrawdown
      · rw [if_pos hd, List.dropLast_concat] at he
        exact hrec e he
      · rw [if_neg hd] at he
        exact hrec e ((List.dropLast_sublist _).subset he)

set_option maxRecDepth 40000 in
/-- Witness for C9: on `demoBars2` at threshold 10 the detector emits a
recovered event followed by an unrecovered one, and every event before the
last is recovered. -/
theorem findQualifyingEvents_unrecovered_last_witness :
    (findQualifyingEvents demoBars2 10).length = 2 ∧
    ((findQualifyingEvents demoBars2 10).dropLast.all fun e => e.recovered) = true := by
  constructor
  · with_unfolding_all rfl
  · exact List.all_eq_true.mpr
      (fun e he => findQualifyingEvents_unrecovered_last demoBars2 10 e he)

theorem datesInv_step {θ : ℚ} {lastD : ℤ} {s : DetectorState} {b : Bar}
    (hb : lastD < b.date) (inv : DatesInv lastD s) :
    DatesInv b.date (stepBar θ s b) := by
  cases hdraw : s.inDrawdown with
  | true =>
      by_cases hrec : b.high ≥ s.event_peak_price ∧ b.date > s.trigger_date
      · rw [stepBar_close hdraw hrec]
        refine ⟨le_refl _, (fun h => nomatch h), (fun h => nomatch h), ?_, ?_⟩
        · intro _ e he
          rcases List.mem_append.mp he with he | he
          · exact lt_trans (lt_trans (inv.draw_before hdraw e he)
              (inv.draw_dates hdraw)) hrec.2
          · rw [List.mem_singleton] at he; subst he
            exact hrec.2
        · exact chain'_concat_of_forall s.events _ inv.chain
            (fun x hx => inv.draw_before hdraw x hx)
      · rw [stepBar_stay hdraw hrec]
        exact ⟨inv.peak_le.trans hb.le, inv.draw_dates, inv.draw_before,
          inv.track_before, inv.chain⟩
  | false =>
      by_cases hbp : b.high > s.peak_price
      · rw [stepBar_newhigh hdraw hbp]
        refine ⟨le_refl _, (fun h => nomatch hdraw.symm.trans h),
          (fun h => nomatch hdraw.symm.trans h), ?_, inv.chain⟩
        intro _ e he
        exact lt_of_lt_of_le (inv.track_before hdraw e he) (inv.peak_le.trans hb.le)
      · by_cases hdt : b.date > s.peak_date
        · by_cases hth : (s.peak_price - b.low) / s.peak_price * 100 ≥ θ
          · rw [stepBar_open hdraw hbp hdt hth]
            refine ⟨hdt.le, fun _ => hdt, ?_, (fun h => nomatch h), inv.chain⟩
            intro _ e he
            exact inv.track_before hdraw e he
          · rw [stepBar_flat2 hdraw hbp hdt hth]
            exact ⟨inv.peak_le.trans hb.le, inv.draw_dates, inv.draw_before,
              inv.track_before, inv.chain⟩
        · rw [stepBar_flat1 hdraw hbp hdt]
          exact ⟨inv.peak_le.trans hb.le, inv.draw_dates, inv.draw_before,
            inv.track_before, inv.chain⟩

theorem okInv_step {θ : ℚ} {s : DetectorState} {b : Bar}
    (hlh : b.low ≤ b.high) (inv : OkInv s) : OkInv (stepBar θ s b) := by
  cases hdraw : s.inDrawdown with
  | true =>
      by_cases hrec : b.high ≥ s.event_peak_price ∧ b.date > s.trigger_date
      · rw [stepBar_close hdraw hrec]
        refine ⟨(fun h => nomatch h), ?_⟩
        intro e he
        rcases List.mem_append.mp he with he | he
        · exact inv.ok e he
        · rw [List.mem_singleton] at he; subst he
          refine ⟨inv.draw_trough hdraw, rfl, fun _ => ?_⟩
          refine ⟨b.date, b.high, b.date - s.trigger_date, rfl, rfl, rfl, hrec.1, rfl, ?_⟩
          have h2 := hrec.2
          omega
      · rw [stepBar_stay hdraw hrec]; exact inv
  | false =>
      by_cases hbp : b.high > s.peak_price
      · rw [stepBar_newhigh hdraw hbp]
        exact ⟨(fun h => nomatch hdraw.symm.trans h), inv.ok⟩
      · by_cases hdt : b.date > s.peak_date
        · by_cases hth : (s.peak_price - b.low) / s.peak_price * 100 ≥ θ
          · rw [stepBar_open hdraw hbp hdt hth]
            exact ⟨fun _ => hlh.trans (not_lt.mp hbp), inv.ok⟩
          · rw [stepBar_flat2 hdraw hbp hdt hth]; exact inv
        · rw [stepBar_flat1 hdraw hbp hdt]; exact inv

theorem datesInv_foldl (θ : ℚ) : ∀ (l : List Bar) (lastD : ℤ) (s : DetectorState),
    DatesInv lastD s → datesAfter lastD l →
    ∃ d, DatesInv d (l.foldl (stepBar θ) s) := by
  intro l
  induction l with
  | nil => intro lastD s inv _; exact ⟨lastD, inv⟩
  | cons b rest ih =>
      intro lastD s inv hda
      exact ih b.date _ (datesInv_step hda.1 inv) hda.2

theorem okInv_foldl (θ : ℚ) : ∀ (l : List Bar) (s : DetectorState),
    OkInv s → (∀ b ∈ l, b.low ≤ b.high) → OkInv (l.foldl (stepBar θ) s) := by
  intro l
  induction l with
  | nil => intro s inv _; exact inv
  | cons b rest ih =>
      intro s inv hlh
      exact ih _ (okInv_step (hlh b (List.mem_cons_self b rest)) inv)
        (fun x hx => hlh x (List.mem_cons_of_mem b hx))

theorem chain'_datesAfter : ∀ (b0 : Bar) (l : List Bar),
    List.Chain' (fun a b => a.date < b.date) (b0 :: l) → datesAfter b0.date l := by
  intro b0 l
  induction l generalizing b0 with
  | nil => intro _; trivial
  | cons b1 rest ih =>
      intro h
      rw [List.chain'_cons] at h
      exact ⟨h.1, ih b1 h.2⟩

/-- **C1.** For every chronologically sorted bar sequence (with the
`high ≥ low` bar invariant of the PriceSeries data model) and every
threshold, every event emitted by `_find_qualifying_events` satisfies
`peak_price ≥ trough_price` and
`decline_pct = (peak_price − trough_price) / peak_price · 100`
(exactly, in the rational embedding — hence within 1e-6 relative
tolerance); and whenever the event is recovered, its recovery fields are
present with `recovery_price ≥ peak_price` and
`recovery_days = recovery_date − trough_date ≥ 0`. -/
theorem findQualifyingEvents_event_invariants (bars : List Bar) (θ : ℚ)
    (hsorted : List.Chain' (fun a b => a.date < b.date) bars)
    (hbars : ∀ b ∈ bars, b.low ≤ b.high) :
    ∀ e ∈ findQualifyingEvents bars θ,
      e.trough_price ≤ e.peak_price ∧
      e.decline_pct = (e.peak_price - e.trough_price) / e.peak_price * 100 ∧
      (e.recovered = true →
        ∃ rd rp days, e.recovery_date = some rd ∧ e.recovery_price = some rp ∧
          e.recovery_days = some days ∧ e.peak_price ≤ rp ∧
          days = rd - e.trough_date ∧ 0 ≤ days) := by
  intro e he
  cases bars with
  | nil => simp [findQualifyingEvents] at he
  | cons b0 rest =>
    cases rest with
    | nil => simp [findQualifyingEvents] at he
    | cons b1 rest2 =>
      have hinv : OkInv ((b1 :: rest2).foldl (stepBar θ) (initState b0)) := by
        refine okInv_foldl θ (b1 :: rest2) (initState b0)
          ⟨(fun h => nomatch h), fun x hx => absurd hx (List.not_mem_nil x)⟩ ?_
        exact fun b hb => hbars b (List.mem_cons_of_mem b0 hb)
      simp only [findQualifyingEvents] at he
      unfold finalEvents at he
      by_cases hd : ((b1 :: rest2).foldl (stepBar θ) (initState b0)).inDrawdown
      · rw [if_pos hd] at he
        rcases List.mem_append.mp he with he | he
        · exact hinv.ok e he
        · rw [List.mem_singleton] at he; subst he
          exact ⟨hinv.draw_trough hd, rfl, fun h => nomatch h⟩
      · rw [if_neg hd] at he
        exact hinv.ok e he

set_option maxRecDepth 40000 in
/-- Witness for C1: the spec's recovered-drawdown scenario `demoBars` at
threshold 20 emits exactly `demoEvent`, which satisfies every clause. -/
theorem findQualifyingEvents_event_invariants_witness :
    demoEvent ∈ findQualifyingEvents demoBars 20 ∧
    (demoEvent.trough_price ≤ demoEvent.peak_price ∧
      demoEvent.decline_pct =
        (demoEvent.peak_price - demoEvent.trough_price) / demoEvent.peak_price * 100 ∧
      (demoEvent.recovered = true →
        ∃ rd rp days, demoEvent.recovery_date = some rd ∧
          demoEvent.recovery_price = some rp ∧
          demoEvent.recovery_days = some days ∧ demoEvent.peak_price ≤ rp ∧
          days = rd - demoEvent.trough_date ∧ 0 ≤ days)) := by
  have hmem : demoEvent ∈ findQualifyingEvents demoBars 20 := by
    rw [show findQualifyingEvents demoBars 20 = [demoEvent] from by with_unfolding_all rfl]
    exact List.mem_singleton.mpr rfl
  exact ⟨hmem, findQualifyingEvents_event_invariants demoBars 20
    (by simp [demoBars, List.chain'_cons]) (by with_unfolding_all decide) demoEvent hmem⟩

/-- **C2.** For every chronologically sorted bar sequence and every
threshold, the emitted events never overlap: each event's `trough_date`
strictly precedes the next event's `peak_date`. -/
theorem findQualifyingEvents_no_overlap (bars : List Bar) (θ : ℚ)
    (hsorted : List.Chain' (fun a b => a.date < b.date) bars) :
    List.Chain' (fun a b => a.trough_date < b.peak_date)
      (findQualifyingEvents bars θ) := by
  cases bars with
  | nil => simp [findQualifyingEvents]
  | cons b0 rest =>
    cases rest with
    | nil => simp [findQualifyingEvents]
    | cons b1 rest2 =>
      have hda : datesAfter b0.date (b1 :: rest2) :=
        chain'_datesAfter b0 (b1 :: rest2) hsorted
      have hinit : DatesInv b0.date (initState b0) :=
        ⟨le_refl _, (fun h => nomatch h), (fun h => nomatch h),
          fun _ x hx => absurd hx (List.not_mem_nil x), List.chain'_nil⟩
      obtain ⟨d, hinv⟩ :=
        datesInv_foldl θ (b1 :: rest2) b0.date (initState b0) hinit hda
      simp only [findQualifyingEvents]
      unfold finalEvents
      by_cases hd : ((b1 :: rest2).foldl (stepBar θ) (initState b0)).inDrawdown
      · rw [if_pos hd]
        exact chain'_concat_of_forall _ _ hinv.chain
          (fun x hx => hinv.draw_before hd x hx)
      · rw [if_neg hd]; exact hinv.chain

set_option maxRecDepth 40000 in
/-- Witness for C2: on `demoBars2` (strictly ascending dates) at threshold 10
the detector emits two events and they satisfy the no-overlap chain. -/
theorem findQualifyingEvents_no_overlap_witness :
    List.Chain' (fun a b => a.trough_date < b.peak_date)
      (findQualifyingEvents demoBars2 10) ∧
    (findQualifyingEvents demoBars2 10).length = 2 :=
  ⟨findQualifyingEvents_no_overlap demoBars2 10 (by simp [demoBars2, List.chain'_cons]),
   by with_unfolding_all rfl⟩

/-! ## Beta calculator (C3) -/

set_option maxRecDepth 40000 in
/-- Counterexample to C3 as stated: with 60 overlapping dates the inner join
yields only 59 day-over-day return observations — fewer than 60 — yet
`_compute_beta` does not return the default 1.0 (on this data it computes
beta 0): the source guards `len(joined) < 60` on joined price rows, not on
return observations. -/
theorem computeBeta_few_returns_counterexample :
    (pctChanges (innerJoinByDate demoStockSeries demoMarketSeries)).length = 59 ∧
    (pctChanges (innerJoinByDate demoStockSeries demoMarketSeries)).length < 60 ∧
    computeBeta demoStockSeries demoMarketSeries = 0 ∧ (0 : ℚ) ≠ 1 := by
  refine ⟨by with_unfolding_all rfl, by with_unfolding_all decide,
    by with_unfolding_all rfl, by norm_num⟩

/-- **C3 (amended).** If the inner join of the stock's and the benchmark's
close series yields fewer than 60 overlapping rows — equivalently, 58 or
fewer day-over-day return observations — then `_compute_beta` returns
exactly 1.0, regardless of the correlation present in the data. -/
theorem computeBeta_default_of_few_joined (stock market : List (ℤ × ℚ))
    (h : (innerJoinByDate stock market).length < 60) :
    computeBeta stock market = 1 := by
  unfold computeBeta
  by_cases he : (stock.isEmpty || market.isEmpty) = true
  · rw [if_pos he]
  · simp only [if_neg he, if_pos h]

set_option maxRecDepth 40000 in
/-- Witness for the amended C3: two one-point series share one date, so the
join has 1 < 60 rows and beta is the default 1.0. -/
theorem computeBeta_default_of_few_joined_witness :
    (innerJoinByDate demoTinySeries demoTinySeries).length < 60 ∧
    computeBeta demoTinySeries demoTinySeries = 1 :=
  ⟨by with_unfolding_all decide,
   computeBeta_default_of_few_joined demoTinySeries demoTinySeries
     (by with_unfolding_all decide)⟩

/-! ## Universe resolver fallback chain (C4) -/

/-- **C4 (code bug).** Evaluation of `get_default_universe` at the failing
input: no same-day live cache (`cacheFile = none`), the live Wikipedia fetch
raises (absorbed), the snapshot file exists but its `pd.read_csv` raises —
and the exception propagates out of `get_default_universe` instead of
falling through to the static seed list, because `_load_snapshot_sp500`
does not wrap `pd.read_csv` in a try/except. -/
theorem getDefaultUniverse_propagates_snapshot_parse_error :
    getDefaultUniverse none 0 Fetch.raises (Fetch.ok ()) true Fetch.raises none 300 =
      Fetch.raises := by
  with_unfolding_all rfl

/-! ## Price history cache (C5) -/

/-- **C5.** If a non-empty cached series covers `[start, end]` (first date
`≤ start`, last date `≥ end − 2` days), `get_price_history` returns the
cached series sliced to `[start, end]` and performs no fetch; otherwise a
fetch is attempted and, if it yields no usable rows (missing columns, empty
result, or transport failure — all absorbed inside `_fetch_price_history`),
an empty series is returned and no exception is raised (the embedding is a
total function). -/
theorem getPriceHistory_cache_and_fallback (cached : List PBar)
    (download : Fetch RawPriceFrame) (startD endD : ℤ) :
    ((cached ≠ [] ∧ minDate cached ≤ startD ∧ endD - 2 ≤ maxDate cached) →
      getPriceHistory cached download startD endD =
        (slicePrices cached startD endD, false)) ∧
    (¬ (cached ≠ [] ∧ minDate cached ≤ startD ∧ endD - 2 ≤ maxDate cached) →
      (getPriceHistory cached download startD endD).2 = true ∧
      (fetchPriceHistory download = [] →
        (getPriceHistory cached download startD endD).1 = [])) := by
  have hcov : cacheCovers cached startD endD = true ↔
      (cached ≠ [] ∧ minDate cached ≤ startD ∧ endD - 2 ≤ maxDate cached) := by
    cases cached with
    | nil => simp [cacheCovers]
    | cons b rest => simp [cacheCovers]
  constructor
  · intro h
    unfold getPriceHistory
    rw [if_pos ⟨h.1, hcov.mpr h⟩]
  · intro h
    unfold getPriceHistory
    have hneg : ¬ (cached ≠ [] ∧ cacheCovers cached startD endD = true) := by
      intro hcon
      exact h ⟨hcon.1, (hcov.mp hcon.2).2⟩
    rw [if_neg hneg]
    by_cases hf : fetchPriceHistory download = []
    · simp only [if_pos hf]
      exact ⟨trivial, fun _ => trivial⟩
    · simp only [if_neg hf]
      exact ⟨trivial, fun hcontra => absurd hcontra hf⟩

set_option maxRecDepth 40000 in
/-- Witness for C5: a covering cache is served back without fetching, and an
empty cache together with a raising download yields the empty series. -/
theorem getPriceHistory_cache_and_fallback_witness :
    getPriceHistory demoCache Fetch.raises 0 10 = (demoCache, false) ∧
    (getPriceHistory ([] : List PBar) Fetch.raises 0 10).2 = true ∧
    (getPriceHistory ([] : List PBar) Fetch.raises 0 10).1 = [] := by
  have h1 := (getPriceHistory_cache_and_fallback demoCache Fetch.raises 0 10).1
    (by refine ⟨by with_unfolding_all decide, ?_, ?_⟩ <;> with_unfolding_all decide)
  have h2 := (getPriceHistory_cache_and_fallback ([] : List PBar) Fetch.raises 0 10).2
    (by simp)
  refine ⟨?_, h2.1, h2.2 (by with_unfolding_all rfl)⟩
  rw [h1]
  with_unfolding_all rfl

/-! ## Orchestrator lemmas (C6, C7, C10) -/

theorem foldl_runStep_decomp (l : List (String × TickerOutcome)) :
    ∀ (st : List StockAnalysis) (d r : ℕ) (F : List String),
      List.foldl runStep ⟨st, d, r, F⟩ l =
        ⟨(List.foldl runStep ⟨st, d, r, []⟩ l).stocks,
         (List.foldl runStep ⟨st, d, r, []⟩ l).declinedEvents,
         (List.foldl runStep ⟨st, d, r, []⟩ l).recoveredEvents,
         F ++ (List.foldl runStep ⟨st, d, r, []⟩ l).failed⟩ := by
  induction l with
  | nil => intro st d r F; simp
  | cons x rest ih =>
      obtain ⟨t, o⟩ := x
      intro st d r F
      simp only [List.foldl_cons]
      cases o with
      | raises =>
          show List.foldl runStep ⟨st, d, r, F ++ [t]⟩ rest =
            ⟨(List.foldl runStep ⟨st, d, r, [t]⟩ rest).stocks,
             (List.foldl runStep ⟨st, d, r, [t]⟩ rest).declinedEvents,
             (List.foldl runStep ⟨st, d, r, [t]⟩ rest).recoveredEvents,
             F ++ (List.foldl runStep ⟨st, d, r, [t]⟩ rest).failed⟩
          rw [ih st d r (F ++ [t]), ih st d r [t]]
          simp [List.append_assoc]
      | skipped =>
          show List.foldl runStep ⟨st, d, r, F⟩ rest = _
          exact ih st d r F
      | noData =>
          show List.foldl runStep ⟨st, d, r, F ++ [t]⟩ rest =
            ⟨(List.foldl runStep ⟨st, d, r, [t]⟩ rest).stocks,
             (List.foldl runStep ⟨st, d, r, [t]⟩ rest).declinedEvents,
             (List.foldl runStep ⟨st, d, r, [t]⟩ rest).recoveredEvents,
             F ++ (List.foldl runStep ⟨st, d, r, [t]⟩ rest).failed⟩
          rw [ih st d r (F ++ [t]), ih st d r [t]]
          simp [List.append_assoc]
      | success stock d2 r2 =>
          show List.foldl runStep ⟨st ++ stock.toList, d + d2, r + r2, F⟩ rest = _
          exact ih (st ++ stock.toList) (d + d2) (r + r2) F

theorem foldl_runStep_failed (l : List (String × TickerOutcome)) :
    ∀ (st : List StockAnalysis) (d r : ℕ) (F : List String),
      (List.foldl runStep ⟨st, d, r, F⟩ l).failed = F ++ failedRaw l := by
  induction l with
  | nil => intro st d r F; simp [failedRaw]
  | cons x rest ih =>
      obtain ⟨t, o⟩ := x
      intro st d r F
      simp only [List.foldl_cons]
      cases o with
      | raises =>
          show (List.foldl runStep ⟨st, d, r, F ++ [t]⟩ rest).failed = _
          rw [ih st d r (F ++ [t])]
          simp [failedRaw, List.append_assoc]
      | skipped =>
          show (List.foldl runStep ⟨st, d, r, F⟩ rest).failed = _
          rw [ih st d r F]
          simp [failedRaw]
      | noData =>
          show (List.foldl runStep ⟨st, d, r, F ++ [t]⟩ rest).failed = _
          rw [ih st d r (F ++ [t])]
          simp [failedRaw, List.append_assoc]
      | success stock d2 r2 =>
          show (List.foldl runStep ⟨st ++ stock.toList, d + d2, r + r2, F⟩ rest).failed = _
          rw [ih (st ++ stock.toList) (d + d2) (r + r2) F]
          simp [failedRaw]

theorem mem_pySortedSet {a : String} {l : List String} :
    a ∈ pySortedSet l ↔ a ∈ l := by
  unfold pySortedSet
  rw [(List.perm_insertionSort _ _).mem_iff, List.mem_dedup]

theorem pySortedSet_sorted (l : List String) :
    List.Sorted (fun a b : String => a ≤ b) (pySortedSet l) :=
  List.sorted_insertionSort _ _

theorem pySortedSet_nodup (l : List String) : (pySortedSet l).Nodup :=
  (List.perm_insertionSort _ _).nodup_iff.mpr (List.nodup_dedup l)

theorem dedup_length_lt_of_not_nodup {l : List String} (h : ¬ l.Nodup) :
    l.dedup.length < l.length := by
  rcases Nat.lt_or_ge l.dedup.length l.length with hlt | hge
  · exact hlt
  · exfalso
    have hsub := List.dedup_sublist l
    have heq : l.dedup = l := hsub.eq_of_length (le_antisymm hsub.length_le hge)
    exact h (heq ▸ l.nodup_dedup)

theorem summaryOfAcc_congr (n₁ n₂ : ℕ) {acc₁ acc₂ : RunAcc}
    (hs : acc₁.stocks = acc₂.stocks)
    (hd : acc₁.declinedEvents = acc₂.declinedEvents)
    (hr : acc₁.recoveredEvents = acc₂.recoveredEvents) :
    (summaryOfAcc n₁ acc₁).declined_stocks = (summaryOfAcc n₂ acc₂).declined_stocks ∧
    (summaryOfAcc n₁ acc₁).recovered_stocks = (summaryOfAcc n₂ acc₂).recovered_stocks ∧
    (summaryOfAcc n₁ acc₁).declined_stock_count = (summaryOfAcc n₂ acc₂).declined_stock_count ∧
    (summaryOfAcc n₁ acc₁).recovered_stock_count = (summaryOfAcc n₂ acc₂).recovered_stock_count ∧
    (summaryOfAcc n₁ acc₁).stock_bluff_rate_pct = (summaryOfAcc n₂ acc₂).stock_bluff_rate_pct ∧
    (summaryOfAcc n₁ acc₁).declined_event_count = (summaryOfAcc n₂ acc₂).declined_event_count ∧
    (summaryOfAcc n₁ acc₁).recovered_event_count = (summaryOfAcc n₂ acc₂).recovered_event_count ∧
    (summaryOfAcc n₁ acc₁).event_bluff_rate_pct = (summaryOfAcc n₂ acc₂).event_bluff_rate_pct ∧
    (summaryOfAcc n₁ acc₁).recovery_days_distribution =
      (summaryOfAcc n₂ acc₂).recovery_days_distribution := by
  obtain ⟨s1, d1, r1, f1⟩ := acc₁
  obtain ⟨s2, d2, r2, f2⟩ := acc₂
  cases hs; cases hd; cases hr
  exact ⟨rfl, rfl, rfl, rfl, rfl, rfl, rfl, rfl, rfl⟩

/-- **C6.** Any exception while analyzing one ticker is caught at that
ticker's boundary: the run never aborts (the embedding is total), the ticker
joins the failed set, and every aggregate produced from the other tickers
(declined/recovered stock lists and counts, event counts, both bluff rates,
the recovery-day distribution) is exactly what it would be without that
ticker's failure; only the failure accounting (failed list and count,
evaluated-ticker count) differs by the failed ticker itself. -/
theorem runAnalysis_failure_isolated (pre post : List (String × TickerOutcome)) (t : String) :
    t ∈ (runAnalysis (pre ++ (t, TickerOutcome.raises) :: post)).failed_tickers ∧
    (runAnalysis (pre ++ (t, TickerOutcome.raises) :: post)).declined_stocks =
      (runAnalysis (pre ++ post)).declined_stocks ∧
    (runAnalysis (pre ++ (t, TickerOutcome.raises) :: post)).recovered_stocks =
      (runAnalysis (pre ++ post)).recovered_stocks ∧
    (runAnalysis (pre ++ (t, TickerOutcome.raises) :: post)).declined_stock_count =
      (runAnalysis (pre ++ post)).declined_stock_count ∧
    (runAnalysis (pre ++ (t, TickerOutcome.raises) :: post)).recovered_stock_count =
      (runAnalysis (pre ++ post)).recovered_stock_count ∧
    (runAnalysis (pre ++ (t, TickerOutcome.raises) :: post)).stock_bluff_rate_pct =
      (runAnalysis (pre ++ post)).stock_bluff_rate_pct ∧
    (runAnalysis (pre ++ (t, TickerOutcome.raises) :: post)).declined_event_count =
      (runAnalysis (pre ++ post)).declined_event_count ∧
    (runAnalysis (pre ++ (t, TickerOutcome.raises) :: post)).recovered_event_count =
      (runAnalysis (pre ++ post)).recovered_event_count ∧
    (runAnalysis (pre ++ (t, TickerOutcome.raises) :: post)).event_bluff_rate_pct =
      (runAnalysis (pre ++ post)).event_bluff_rate_pct ∧
    (runAnalysis (pre ++ (t, TickerOutcome.raises) :: post)).recovery_days_distribution =
      (runAnalysis (pre ++ post)).recovery_days_distribution ∧
    (runAnalysis (pre ++ (t, TickerOutcome.raises) :: post)).failed_ticker_count =
      (runAnalysis (pre ++ post)).failed_ticker_count + 1 ∧
    (runAnalysis (pre ++ (t, TickerOutcome.raises) :: post)).evaluated_ticker_count =
      (runAnalysis (pre ++ post)).evaluated_ticker_count + 1 := by
  have hw : accOf (pre ++ (t, TickerOutcome.raises) :: post) =
      ⟨(List.foldl runStep ⟨(accOf pre).stocks, (accOf pre).declinedEvents,
          (accOf pre).recoveredEvents, []⟩ post).stocks,
       (List.foldl runStep ⟨(accOf pre).stocks, (accOf pre).declinedEvents,
          (accOf pre).recoveredEvents, []⟩ post).declinedEvents,
       (List.foldl runStep ⟨(accOf pre).stocks, (accOf pre).declinedEvents,
          (accOf pre).recoveredEvents, []⟩ post).recoveredEvents,
       ((accOf pre).failed ++ [t]) ++
         (List.foldl runStep ⟨(accOf pre).stocks, (accOf pre).declinedEvents,
            (accOf pre).recoveredEvents, []⟩ post).failed⟩ := by
    unfold accOf
    rw [List.foldl_append, List.foldl_cons]
    exact foldl_runStep_decomp post _ _ _ _
  have ho : accOf (pre ++ post) =
      ⟨(List.foldl runStep ⟨(accOf pre).stocks, (accOf pre).declinedEvents,
          (accOf pre).recoveredEvents, []⟩ post).stocks,
       (List.foldl runStep ⟨(accOf pre).stocks, (accOf pre).declinedEvents,
          (accOf pre).recoveredEvents, []⟩ post).declinedEvents,
       (List.foldl runStep ⟨(accOf pre).stocks, (accOf pre).declinedEvents,
          (accOf pre).recoveredEvents, []⟩ post).recoveredEvents,
       (accOf pre).failed ++
         (List.foldl runStep ⟨(accOf pre).stocks, (accOf pre).declinedEvents,
            (accOf pre).recoveredEvents, []⟩ post).failed⟩ := by
    unfold accOf
    rw [List.foldl_append]
    exact foldl_runStep_decomp post _ _ _ _
  have hs : (accOf (pre ++ (t, TickerOutcome.raises) :: post)).stocks =
      (accOf (pre ++ post)).stocks := by rw [hw, ho]
  have hd : (accOf (pre ++ (t, TickerOutcome.raises) :: post)).declinedEvents =
      (accOf (pre ++ post)).declinedEvents := by rw [hw, ho]
  have hr : (accOf (pre ++ (t, TickerOutcome.raises) :: post)).recoveredEvents =
      (accOf (pre ++ post)).recoveredEvents := by rw [hw, ho]
  have hcongr := summaryOfAcc_congr
    (pre ++ (t, TickerOutcome.raises) :: post).length (pre ++ post).length hs hd hr
  refine ⟨?_, hcongr.1, hcongr.2.1, hcongr.2.2.1, hcongr.2.2.2.1, hcongr.2.2.2.2.1,
    hcongr.2.2.2.2.2.1, hcongr.2.2.2.2.2.2.1, hcongr.2.2.2.2.2.2.2.1,
    hcongr.2.2.2.2.2.2.2.2, ?_, ?_⟩
  · show t ∈ pySortedSet (accOf (pre ++ (t, TickerOutcome.raises) :: post)).failed
    rw [hw]
    exact mem_pySortedSet.mpr (by simp)
  · show (accOf (pre ++ (t, TickerOutcome.raises) :: post)).failed.length =
      (accOf (pre ++ post)).failed.length + 1
    rw [hw, ho]
    simp only [List.length_append, List.length_cons, List.length_nil]
    omega
  · show (pre ++ (t, TickerOutcome.raises) :: post).length = (pre ++ post).length + 1
    simp only [List.length_append, List.length_cons]
    omega

theorem safeRatio_den_zero (n : ℚ) : safeRatio n 0 = 0 := by
  unfold safeRatio
  rw [if_pos le_rfl]

theorem round4_zero : round4 0 = 0 := by with_unfolding_all rfl

set_option maxRecDepth 40000 in
/-- Counterexample to C7 as stated: with three declined stocks of which one
recovered, `stock_bluff_rate_pct` is `round(100/3, 4) = 33.3333`, which is
not equal to `100 · recovered / declined = 100/3`: the source rounds both
rates to 4 decimal places. -/
theorem runAnalysis_rate_rounding_counterexample :
    (runAnalysis demoOutcomes).declined_stock_count = 3 ∧
    (runAnalysis demoOutcomes).recovered_stock_count = 1 ∧
    (runAnalysis demoOutcomes).stock_bluff_rate_pct ≠
      100 * ((runAnalysis demoOutcomes).recovered_stock_count : ℚ) /
        ((runAnalysis demoOutcomes).declined_stock_count : ℚ) := by
  refine ⟨by with_unfolding_all rfl, by with_unfolding_all rfl, ?_⟩
  intro hcon
  rw [show (runAnalysis demoOutcomes).stock_bluff_rate_pct = 333333 / 10000 from
        by with_unfolding_all rfl,
      show ((runAnalysis demoOutcomes).recovered_stock_count : ℚ) = 1 from
        by with_unfolding_all rfl,
      show ((runAnalysis demoOutcomes).declined_stock_count : ℚ) = 3 from
        by with_unfolding_all rfl] at hcon
  norm_num at hcon

/-- **C7 (amended).** In every summary returned by `run`,
`stock_bluff_rate_pct` equals `100 · recovered_stock_count /
declined_stock_count` rounded to 4 decimal places, and
`event_bluff_rate_pct` equals `100 · recovered_event_count /
declined_event_count` rounded to 4 decimal places; each is exactly `0.0`
whenever its denominator is `0` (never a division error — `_safe_ratio`
short-circuits a non-positive denominator). -/
theorem runAnalysis_bluff_rates (outcomes : List (String × TickerOutcome)) :
    (runAnalysis outcomes).stock_bluff_rate_pct =
      round4 (safeRatio ((runAnalysis outcomes).recovered_stock_count : ℚ)
        ((runAnalysis outcomes).declined_stock_count : ℚ) * 100) ∧
    (runAnalysis outcomes).event_bluff_rate_pct =
      round4 (safeRatio ((runAnalysis outcomes).recovered_event_count : ℚ)
        ((runAnalysis outcomes).declined_event_count : ℚ) * 100) ∧
    ((runAnalysis outcomes).declined_stock_count = 0 →
      (runAnalysis outcomes).stock_bluff_rate_pct = 0) ∧
    ((runAnalysis outcomes).declined_event_count = 0 →
      (runAnalysis outcomes).event_bluff_rate_pct = 0) := by
  refine ⟨rfl, rfl, ?_, ?_⟩
  · intro h
    rw [show (runAnalysis outcomes).stock_bluff_rate_pct =
          round4 (safeRatio ((runAnalysis outcomes).recovered_stock_count : ℚ)
            ((runAnalysis outcomes).declined_stock_count : ℚ) * 100) from rfl,
        h]
    simp [safeRatio_den_zero, round4_zero]
  · intro h
    rw [show (runAnalysis outcomes).event_bluff_rate_pct =
          round4 (safeRatio ((runAnalysis outcomes).recovered_event_count : ℚ)
            ((runAnalysis outcomes).declined_event_count : ℚ) * 100) from rfl,
        h]
    simp [safeRatio_den_zero, round4_zero]

/-- Witness for the amended C7: on the empty run both denominators are 0 and
both rates are exactly 0. -/
theorem runAnalysis_bluff_rates_witness :
    (runAnalysis []).declined_stock_count = 0 ∧
    (runAnalysis []).declined_event_count = 0 ∧
    (runAnalysis []).stock_bluff_rate_pct = 0 ∧
    (runAnalysis []).event_bluff_rate_pct = 0 := by
  have h := runAnalysis_bluff_rates []
  exact ⟨rfl, rfl, h.2.2.1 rfl, h.2.2.2 rfl⟩

/-- **C10.** (implicit) In every summary returned by `run`, `failed_tickers`
is sorted and duplicate-free, while `failed_ticker_count` counts every
per-ticker failure occurrence before deduplication (the source takes
`len(failed_tickers)` on the raw list but stores `sorted(set(...))`); hence
with a duplicated failing ticker the count strictly exceeds the list
length. -/
theorem runAnalysis_failed_ticker_accounting (outcomes : List (String × TickerOutcome)) :
    List.Sorted (fun a b : String => a ≤ b) (runAnalysis outcomes).failed_tickers ∧
    (runAnalysis outcomes).failed_tickers.Nodup ∧
    (runAnalysis outcomes).failed_ticker_count = (failedRaw outcomes).length ∧
    (¬ (failedRaw outcomes).Nodup →
      (runAnalysis outcomes).failed_tickers.length <
        (runAnalysis outcomes).failed_ticker_count) := by
  have hfail : (accOf outcomes).failed = failedRaw outcomes := by
    have h := foldl_runStep_failed outcomes [] 0 0 []
    simpa [accOf] using h
  refine ⟨pySortedSet_sorted _, pySortedSet_nodup _, ?_, ?_⟩
  · show (accOf outcomes).failed.length = (failedRaw outcomes).length
    rw [hfail]
  · intro h
    show (pySortedSet (accOf outcomes).failed).length < (accOf outcomes).failed.length
    rw [hfail]
    calc (pySortedSet (failedRaw outcomes)).length
        = (failedRaw outcomes).dedup.length := (List.perm_insertionSort _ _).length_eq
      _ < (failedRaw outcomes).length := dedup_length_lt_of_not_nodup h

set_option maxRecDepth 40000 in
/-- Witness for C10: the same failing ticker twice gives
`failed_tickers = ["XXX"]` but `failed_ticker_count = 2`. -/
theorem runAnalysis_failed_ticker_accounting_witness :
    (runAnalysis demoFailedOutcomes).failed_tickers = ["XXX"] ∧
    (runAnalysis demoFailedOutcomes).failed_ticker_count = 2 ∧
    (runAnalysis demoFailedOutcomes).failed_tickers.length <
      (runAnalysis demoFailedOutcomes).failed_ticker_count := by
  refine ⟨by with_unfolding_all rfl, by with_unfolding_all rfl, ?_⟩
  exact (runAnalysis_failed_ticker_accounting demoFailedOutcomes).2.2.2
    (by with_unfolding_all decide)

/-! ## Universe resizing (C8) -/

theorem dedupeStep_nodup {acc : List String} (h : acc.Nodup) (raw : String) :
    (dedupeStep acc raw).Nodup := by
  show (if normalizeTicker raw = "" ∨ normalizeTicker raw ∈ acc then acc
        else acc ++ [normalizeTicker raw]).Nodup
  by_cases hc : normalizeTicker raw = "" ∨ normalizeTicker raw ∈ acc
  · rw [if_pos hc]; exact h
  · rw [if_neg hc, List.nodup_append]
    refine ⟨h, List.nodup_singleton _, ?_⟩
    intro x hx hx2
    rw [List.mem_singleton] at hx2
    subst hx2
    exact (not_or.mp hc).2 hx

theorem foldl_dedupeStep_nodup : ∀ (l acc : List String),
    acc.Nodup → (List.foldl dedupeStep acc l).Nodup := by
  intro l
  induction l with
  | nil => intro acc h; exact h
  | cons x rest ih => intro acc h; exact ih _ (dedupeStep_nodup h x)

theorem dedupeKeepOrder_nodup (l : List String) : (dedupeKeepOrder l).Nodup :=
  foldl_dedupeStep_nodup l [] List.nodup_nil

theorem loadDefaultSeedTickers_nodup (seedFile : Option (Fetch UFrame)) :
    (loadDefaultSeedTickers seedFile).Nodup := by
  rcases seedFile with _ | sf
  · exact dedupeKeepOrder_nodup _
  · rcases sf with f | _
    · show (if f.hasTicker ∧ f.rows ≠ [] then
            if dedupeKeepOrder f.rows ≠ [] then dedupeKeepOrder f.rows
            else dedupeKeepOrder FALLBACK_SP500_TICKERS
          else dedupeKeepOrder FALLBACK_SP500_TICKERS).Nodup
      split
      · split
        · exact dedupeKeepOrder_nodup _
        · exact dedupeKeepOrder_nodup _
      · exact dedupeKeepOrder_nodup _
    · exact dedupeKeepOrder_nodup _

theorem padFromSeed_eq : ∀ (seed tickers : List String) (target : ℤ),
    seed.Nodup → (tickers.length : ℤ) < target →
    padFromSeed tickers seed target =
      tickers ++ (seed.filter fun x => decide (x ∉ tickers)).take
        (target - (tickers.length : ℤ)).toNat := by
  intro seed
  induction seed with
  | nil =>
      intro tickers target _ _
      simp [padFromSeed]
  | cons s rest ih =>
      intro tickers target hnd hlt
      rw [List.nodup_cons] at hnd
      show (if (((if s ∈ tickers then tickers else tickers ++ [s]).length : ℤ) ≥ target)
            then (if s ∈ tickers then tickers else tickers ++ [s])
            else padFromSeed (if s ∈ tickers then tickers else tickers ++ [s]) rest target) = _
      by_cases hmem : s ∈ tickers
      · simp only [if_pos hmem]
        rw [if_neg (not_le.mpr hlt), ih tickers target hnd.2 hlt]
        congr 1
        rw [List.filter_cons]
        simp [hmem]
      · simp only [if_neg hmem]
        by_cases hfull : (((tickers ++ [s]).length : ℤ) ≥ target)
        · rw [if_pos hfull]
          have hlen1 : (target - (tickers.length : ℤ)).toNat = 1 := by
            simp only [List.length_append, List.length_singleton] at hfull
            push_cast at hfull
            omega
          rw [hlen1, List.filter_cons]
          simp [hmem]
        · rw [if_neg hfull]
          have hlt2 : (((tickers ++ [s]).length : ℤ) < target) := not_le.mp hfull
          rw [ih (tickers ++ [s]) target hnd.2 hlt2]
          have hfe : (rest.filter fun x => decide (x ∉ tickers ++ [s])) =
              (rest.filter fun x => decide (x ∉ tickers)) := by
            apply List.filter_congr
            intro x hx
            have hxs : x ≠ s := fun hh => hnd.1 (hh ▸ hx)
            rw [decide_eq_decide]
            simp [List.mem_append, hxs]
          have hk : (target - (tickers.length : ℤ)).toNat =
              (target - (((tickers ++ [s]).length : ℕ) : ℤ)).toNat + 1 := by
            simp only [List.length_append, List.length_singleton]
            push_cast
            omega
          rw [hfe, hk, List.filter_cons]
          rw [if_pos (by simpa using hmem)]
          rw [List.take_succ_cons]
          simp [List.append_assoc]

set_option maxRecDepth 40000 in
/-- **C8.** Universe resizing is deterministic: after normalization and
dedup, a list shorter than the target is padded by appending the
not-yet-present seed tickers in seed order until the target is met or the
seed is exhausted (equivalently: the prefix of the filtered seed of the
missing length), and a list at least as long is truncated to the first N.
In particular, with tickers [A..J] and target 5 — and likewise with an
empty list padded from a seed file [A..J] and target 5 — the result is
exactly [A,B,C,D,E] in original order. -/
theorem resizeDefaultUniverse_deterministic (seedFile : Option (Fetch UFrame))
    (sz : ℤ) (u : UniverseData) :
    ((((dedupeKeepOrder u.tickers).length : ℤ) < max 1 sz →
      (resizeDefaultUniverse seedFile sz u).tickers =
        dedupeKeepOrder u.tickers ++
          ((loadDefaultSeedTickers seedFile).filter
              fun x => decide (x ∉ dedupeKeepOrder u.tickers)).take
            (max 1 sz - ((dedupeKeepOrder u.tickers).length : ℤ)).toNat) ∧
    (((dedupeKeepOrder u.tickers).length : ℤ) ≥ max 1 sz →
      (resizeDefaultUniverse seedFile sz u).tickers =
        (dedupeKeepOrder u.tickers).take (max 1 sz).toNat) ∧
    (resizeDefaultUniverse none 5
        ⟨"snapshot-feb2026", none, ["A","B","C","D","E","F","G","H","I","J"]⟩).tickers =
      ["A","B","C","D","E"] ∧
    (resizeDefaultUniverse
        (some (Fetch.ok ⟨true, ["A","B","C","D","E","F","G","H","I","J"], false, false, none⟩))
        5 ⟨"fallback-static", none, []⟩).tickers = ["A","B","C","D","E"]) := by
  refine ⟨?_, ?_, ?_, ?_⟩
  · intro h
    have hpad := padFromSeed_eq (loadDefaultSeedTickers seedFile) (dedupeKeepOrder u.tickers)
      (max 1 sz) (loadDefaultSeedTickers_nodup seedFile) h
    have hlen : ((padFromSeed (dedupeKeepOrder u.tickers) (loadDefaultSeedTickers seedFile)
        (max 1 sz)).length : ℤ) ≤ max 1 sz := by
      rw [hpad]
      have h1 := List.length_take_le
        ((max 1 sz - ((dedupeKeepOrder u.tickers).length : ℤ)).toNat)
        ((loadDefaultSeedTickers seedFile).filter
          fun x => decide (x ∉ dedupeKeepOrder u.tickers))
      simp only [List.length_append]
      push_cast
      omega
    unfold resizeDefaultUniverse
    simp only [if_pos h]
    rw [if_neg (not_lt.mpr hlen)]
    exact hpad
  · intro h
    unfold resizeDefaultUniverse
    simp only [if_neg (not_lt.mpr h)]
    by_cases h2 : (((dedupeKeepOrder u.tickers).length : ℤ) > max 1 sz)
    · rw [if_pos h2]
    · rw [if_neg h2]
      have hle : (dedupeKeepOrder u.tickers).length ≤ (max 1 sz).toNat := by omega
      rw [List.take_of_length_le hle]
  · with_unfolding_all rfl
  · with_unfolding_all rfl

set_option maxRecDepth 40000 in
/-- Witness for C8: a short list is padded from the seed file in seed order
(`["ZZ"]` at target 3 with seed `[S1..S4]` gives `["ZZ","S1","S2"]`), and a
long list is truncated to the first N. -/
theorem resizeDefaultUniverse_deterministic_witness :
    (resizeDefaultUniverse
        (some (Fetch.ok ⟨true, ["S1", "S2", "S3", "S4"], false, false, none⟩)) 3
        ⟨"x", none, ["ZZ"]⟩).tickers = ["ZZ", "S1", "S2"] ∧
    (resizeDefaultUniverse none 5
        ⟨"snap", none, ["A","B","C","D","E","F","G","H","I","J"]⟩).tickers =
      ["A","B","C","D","E"] := by
  constructor
  · have h := (resizeDefaultUniverse_deterministic
        (some (Fetch.ok ⟨true, ["S1", "S2", "S3", "S4"], false, false, none⟩)) 3
        ⟨"x", none, ["ZZ"]⟩).1 (by with_unfolding_all decide)
    rw [h]
    with_unfolding_all rfl
  · have h := (resizeDefaultUniverse_deterministic none 5
        ⟨"snap", none, ["A","B","C","D","E","F","G","H","I","J"]⟩).2.1
        (by with_unfolding_all decide)
    rw [h]
    with_unfolding_all rfl

end MarketBluff
